import Mathlib

/-!
Shallow embedding of the PKIsensee inplace_vector container, a fixed-capacity
contiguous vector that stores its elements on the stack (a C++26
std::inplace_vector work-alike).

Modelling choices. Slots [0, size_) of the raw storage block hold live
objects and size_ is the sole arbiter of liveness, so the list of live
elements, in slot order, determines the whole observable state; the
container is therefore modelled as that list. Iterators are modelled as
indices into the live range. Throwing operations return the resulting
container state paired with an Except value, where the state component is
the state left behind when the exception propagates; in the source every
capacity check precedes any mutation, which the definitions mirror.
-/

namespace PKIsensee

/-- Errors thrown by the container: std::bad_alloc on capacity exhaustion
and std::out_of_range from the checked element accessor. -/
inductive Err where
  | badAlloc
  | outOfRange
deriving DecidableEq

/-- Result of a three-way comparison, modelling std::strong_ordering. -/
inductive SOrd where
  | lt
  | eq
  | gt
deriving DecidableEq

/-- The container inplace_vector of element type T and fixed capacity
Capacity. The field elems lists the live elements, i.e. the contents of
slots [0, size_) of the raw storage block. -/
structure inplace_vector (T : Type) (Capacity : Nat) where
  elems : List T

namespace inplace_vector

variable {T : Type} {Capacity : Nat}

/-- The size() accessor: returns size_, the number of live elements. -/
def size (v : inplace_vector T Capacity) : Nat := v.elems.length

/-- The container invariant: 0 <= size() <= Capacity (the lower bound is
inherent in Nat). -/
abbrev wf (v : inplace_vector T Capacity) : Prop := v.size ≤ Capacity

/-- Default constructor: size() == 0, no elements constructed. -/
def mkEmpty : inplace_vector T Capacity := ⟨[]⟩

/-- Models try_emplace_back: if size() == capacity() return nullptr with no
state change; otherwise construct_at( end(), value ), increment size_ and
return addressof( back() ). The returned pointer is modelled as the index
of the newly constructed element, none standing for nullptr. -/
def try_emplace_back (v : inplace_vector T Capacity) (x : T) :
    inplace_vector T Capacity × Option Nat :=
  if v.size = Capacity then (v, none)
  else (⟨v.elems ++ [x]⟩, some v.size)

/-- Models emplace_back: calls try_emplace_back and throws std::bad_alloc
when that returns nullptr, otherwise returns back(). -/
def emplace_back (v : inplace_vector T Capacity) (x : T) :
    inplace_vector T Capacity × Except Err Nat :=
  match try_emplace_back v x with
  | (v1, none) => (v1, Except.error Err.badAlloc)
  | (v1, some i) => (v1, Except.ok i)

/-- Models push_back: emplace_back( value ); return back(). -/
def push_back (v : inplace_vector T Capacity) (x : T) :
    inplace_vector T Capacity × Except Err Nat :=
  emplace_back v x

/-- Models try_push_back: return try_emplace_back( value ). -/
def try_push_back (v : inplace_vector T Capacity) (x : T) :
    inplace_vector T Capacity × Option Nat :=
  try_emplace_back v x

/-- Models unchecked_emplace_back and unchecked_push_back: the caller
guarantees size() < capacity() (debug assertion only) and the function
returns *try_emplace_back( value ). -/
def unchecked_emplace_back (v : inplace_vector T Capacity) (x : T) :
    inplace_vector T Capacity :=
  (try_emplace_back v x).1

/-- Models the for-loops of the copy and move constructors, the assignment
operators, the count constructor and resize growth: a sequence of
emplace_back calls that stops at the first thrown std::bad_alloc, returning
the container state reached together with the outcome. -/
def emplace_back_loop (v : inplace_vector T Capacity) :
    List T → inplace_vector T Capacity × Except Err Unit
  | [] => (v, Except.ok ())
  | x :: xs =>
    match emplace_back v x with
    | (v1, Except.error e) => (v1, Except.error e)
    | (v1, Except.ok _) => emplace_back_loop v1 xs

/-- Models the count constructor of part_001 lines 90 to 97: after the
debug assertion, emplace_back( T{} ) runs count times starting from the
empty container. The parameter dflt stands for the default-initialized
value T{}. -/
def ctor_count (dflt : T) (count : Nat) :
    inplace_vector T Capacity × Except Err Unit :=
  emplace_back_loop mkEmpty (List.replicate count dflt)

/-- The debug assertion of the count constructor in part_001 line 94:
count <= capacity(). -/
abbrev ctor_count_assert (Capacity count : Nat) : Prop := count ≤ Capacity

/-- The debug assertion of the count constructor in the part_000 draft
line 108 and in the draft inside inplace_vector.h line 698:
count < capacity(), strictly. -/
abbrev ctor_count_assert_strict (Capacity count : Nat) : Prop :=
  count < Capacity

/-- Models clear(): destroy( begin(), end() ); size_ = 0. -/
def clear (_ : inplace_vector T Capacity) : inplace_vector T Capacity := ⟨[]⟩

/-- Models pop_back(): precondition size() > 0 (debug assertion);
destroy( end() - 1, end() ); decrement size_. -/
def pop_back (v : inplace_vector T Capacity) : inplace_vector T Capacity :=
  ⟨v.elems.dropLast⟩

/-- Models erase( first, last ) of part_001 lines 584 to 603, with the
iterators as indices. Preconditions (debug assertions): first <= last and
both within [begin, end]. If first == last, no-op returning first.
Otherwise std::move( last, end(), first ) compacts the trailing live range
leftward, the now-stale tail is destroyed, and size_ decreases by
last - first; the live contents become take first ++ drop last. Returns
first, the position following the last removed element. -/
def erase_range (v : inplace_vector T Capacity) (first last : Nat) :
    inplace_vector T Capacity × Nat :=
  if first = last then (v, first)
  else (⟨v.elems.take first ++ v.elems.drop last⟩, first)

/-- Models the single-element erase( pos ): erase( pos, pos + 1 ). -/
def erase_at (v : inplace_vector T Capacity) (pos : Nat) :
    inplace_vector T Capacity × Nat :=
  erase_range v pos (pos + 1)

/-- Models at( i ): if i >= size() throw std::out_of_range, else return
ref( i ). The state component records that the container is untouched on
both paths; the dite keeps the in-range proof for the element lookup. -/
def at_checked (v : inplace_vector T Capacity) (i : Nat) :
    inplace_vector T Capacity × Except Err T :=
  (v,
   if h : i < v.size then Except.ok (v.elems.get ⟨i, h⟩)
   else Except.error Err.outOfRange)

/-- Models std::rotate( begin() + first, begin() + middle, end() ) as used
by the positional inserts: the segment [first, len) becomes
[middle, len) ++ [first, middle). -/
def rotate_tail (l : List T) (first middle : Nat) : List T :=
  l.take first ++ l.drop middle ++ (l.drop first).take (middle - first)

/-- The number of values of the 64 bit size_type size_t: arithmetic on
size_t in the source wraps modulo this constant. -/
def sizeTWrap : Nat := 2 ^ 64

/-- Models the append loop of insert( pos, count, value ): count calls of
unchecked_emplace_back( value ). Each call dereferences the pointer
returned by try_emplace_back, so when the container is already full the
call dereferences nullptr; none models that undefined behavior. -/
def unchecked_append_n (v : inplace_vector T Capacity) (count : Nat)
    (value : T) : Option (inplace_vector T Capacity) :=
  match count with
  | 0 => some v
  | n + 1 =>
    match try_emplace_back v value with
    | (_, none) => none
    | (v1, some _) => unchecked_append_n v1 n value

/-- Models the append loop of insert( pos, first, last ): one
unchecked_emplace_back per element of the source range. -/
def unchecked_append_list (v : inplace_vector T Capacity) :
    List T → inplace_vector T Capacity
  | [] => v
  | x :: xs => unchecked_append_list (unchecked_emplace_back v x) xs

/-- Models insert( pos, count, value ) of part_001 lines 409 to 422:
precondition (debug assertion) pos within [begin, end]; if
( size() + count ) > capacity() — a size_t sum, so it wraps modulo
2^64 — throw std::bad_alloc before any element is constructed; otherwise
append the new elements at the end and rotate them into place before pos,
returning pos. When a wrapped sum slips past the check although the count
does not fit, the append loop dereferences nullptr; none models that
undefined behavior. -/
def insert_count (v : inplace_vector T Capacity) (pos count : Nat)
    (value : T) : Option (inplace_vector T Capacity × Except Err Nat) :=
  if (v.size + count) % sizeTWrap > Capacity then
    some (v, Except.error Err.badAlloc)
  else
    match unchecked_append_n v count value with
    | none => none
    | some appended =>
      some (⟨rotate_tail appended.elems pos v.size⟩, Except.ok pos)

/-- Models insert( pos, first, last ) of part_001 lines 424 to 439: the
element count is computed up front as last - first, the same capacity
check runs before any construction, then append and rotate as above. -/
def insert_list (v : inplace_vector T Capacity) (pos : Nat) (src : List T) :
    inplace_vector T Capacity × Except Err Nat :=
  if v.size + src.length > Capacity then (v, Except.error Err.badAlloc)
  else
    let appended := unchecked_append_list v src
    (⟨rotate_tail appended.elems pos v.size⟩, Except.ok pos)

/-- Models resizeImpl( count, getValue ) of part_001 lines 616 to 636, with
the value produced by the factory passed explicitly: no-op when
count == size(); throw std::bad_alloc when count > capacity(); destroy the
trailing elements when count < size(); otherwise emplace_back values until
size() == count. -/
def resizeImpl (v : inplace_vector T Capacity) (count : Nat) (value : T) :
    inplace_vector T Capacity × Except Err Unit :=
  if count = v.size then (v, Except.ok ())
  else if count > Capacity then (v, Except.error Err.badAlloc)
  else if count < v.size then (⟨v.elems.take count⟩, Except.ok ())
  else emplace_back_loop v (List.replicate (count - v.size) value)

/-- Models the copy constructor: emplace_back a copy of each source
element, starting from the empty container. -/
def copy_ctor (src : inplace_vector T Capacity) :
    inplace_vector T Capacity × Except Err Unit :=
  emplace_back_loop mkEmpty src.elems

/-- Models copy assignment between distinct objects (part_001 lines 152 to
159): clear(); then emplace_back each element of rhs. -/
def copy_assign (lhs rhs : inplace_vector T Capacity) :
    inplace_vector T Capacity × Except Err Unit :=
  emplace_back_loop (clear lhs) rhs.elems

/-- Models copy assignment when rhs aliases *this, i.e. v = v: clear()
empties the very container the loop then reads, and the range-for caches
begin() and end() after the clear, so the loop body never runs. -/
def copy_assign_self (v : inplace_vector T Capacity) :
    inplace_vector T Capacity × Except Err Unit :=
  let cleared := clear v
  emplace_back_loop cleared cleared.elems

/-- Models the move constructor of part_001 lines 127 to 134: emplace_back
a move of each source element, then set other.size_ = 0, leaving the
source valid but empty. The result pairs the new object with the source
state; when the loop throws, the zeroing is never reached. -/
def move_ctor (src : inplace_vector T Capacity) :
    (inplace_vector T Capacity × inplace_vector T Capacity) ×
      Except Err Unit :=
  match emplace_back_loop mkEmpty src.elems with
  | (b, Except.ok _) => ((b, clear src), Except.ok ())
  | (b, Except.error e) => ((b, src), Except.error e)

/-- Models move assignment of part_001 lines 161 to 171: clear();
emplace_back a move of each rhs element; then rhs.size_ = 0. The result
pairs the new lhs state with the rhs state. -/
def move_assign (lhs rhs : inplace_vector T Capacity) :
    (inplace_vector T Capacity × inplace_vector T Capacity) ×
      Except Err Unit :=
  match emplace_back_loop (clear lhs) rhs.elems with
  | (l, Except.ok _) => ((l, clear rhs), Except.ok ())
  | (l, Except.error e) => ((l, rhs), Except.error e)

/-- Models swap of part_001 lines 605 to 612: tmp = move( rhs );
rhs = move( *this ); *this = move( tmp ). The result pairs the final
states of *this and rhs. -/
def swap_vec (a b : inplace_vector T Capacity) :
    (inplace_vector T Capacity × inplace_vector T Capacity) ×
      Except Err Unit :=
  match move_ctor b with
  | ((tmp, b1), Except.ok _) =>
    match move_assign b1 a with
    | ((b2, a1), Except.ok _) =>
      match move_assign a1 tmp with
      | ((a2, _), r) => ((a2, b2), r)
    | ((b2, a1), Except.error e) => ((a1, b2), Except.error e)
  | ((_, b1), Except.error e) => ((a, b1), Except.error e)

/-- Models synthThreeWay of part_001 lines 655 to 676: lhs <=> rhs when the
type supports it, otherwise a strong ordering synthesized from the less
and greater comparisons. Over a linear order both branches agree with
this definition. -/
def synthThreeWay [LinearOrder T] (x y : T) : SOrd :=
  if x < y then SOrd.lt else if x > y then SOrd.gt else SOrd.eq

/-- Models std::lexicographical_compare_three_way over the live element
sequences using synthThreeWay, as invoked by the comparison operator:
element by element, the first differing pair decides, and the sequence
that runs out of elements first compares less. -/
def lex_compare_three_way [LinearOrder T] : List T → List T → SOrd
  | [], [] => SOrd.eq
  | [], _ :: _ => SOrd.lt
  | _ :: _, [] => SOrd.gt
  | x :: xs, y :: ys =>
    match synthThreeWay x y with
    | SOrd.eq => lex_compare_three_way xs ys
    | o => o

/-- Models the three-way comparison operator of part_001 lines 719 to 730:
it compares the sizes first, returning less or greater on a size
difference, and only falls back to std::lexicographical_compare_three_way
when the sizes are equal. -/
def compare_three_way [LinearOrder T]
    (lhs rhs : inplace_vector T Capacity) : SOrd :=
  if lhs.size < rhs.size then SOrd.lt
  else if lhs.size > rhs.size then SOrd.gt
  else lex_compare_three_way lhs.elems rhs.elems

/-- Modelled from the spec: the normative three-way comparison is pure
lexicographic comparison over the elements, size acting only as the
ran-out-of-elements tiebreak, with no size pre-check. This matches the
C++26 std::inplace_vector ordering the header documents itself as
implementing. -/
def spec_compare_three_way [LinearOrder T]
    (lhs rhs : inplace_vector T Capacity) : SOrd :=
  lex_compare_three_way lhs.elems rhs.elems

end inplace_vector

variable {T : Type} {Capacity : Nat}

/-- Models the effect of std::remove and std::remove_if on the live range:
the survivors, meaning the elements for which the removal test is false,
are compacted to the front of the range in their original order, and the
returned iterator is begin() plus the number of survivors. The slots after
that iterator hold unspecified moved-from values, which the free erase
functions below immediately pass to member erase, so only the survivor
run is modelled. -/
def remove_if_survivors (p : T → Bool) : List T → List T
  | [] => []
  | x :: xs =>
    if p x then remove_if_survivors p xs else x :: remove_if_survivors p xs

/-- Models the free function erase( vec, value ) of part_001 lines 765 to
774: it = std::remove( begin, end, value ); countRemoved =
distance( it, end() ); vec.erase( it, end() ); return countRemoved. -/
def erase_value [DecidableEq T] (v : inplace_vector T Capacity)
    (value : T) : inplace_vector T Capacity × Nat :=
  let kept := remove_if_survivors (fun e => decide (e = value)) v.elems
  (⟨kept⟩, v.size - kept.length)

/-- Models the free function erase_if( vec, pred ) of part_001 lines 776 to
785: it = std::remove_if( begin, end, pred ); countRemoved =
distance( it, end() ); vec.erase( it, end() ); return countRemoved. -/
def erase_if_free (v : inplace_vector T Capacity) (p : T → Bool) :
    inplace_vector T Capacity × Nat :=
  let kept := remove_if_survivors p v.elems
  (⟨kept⟩, v.size - kept.length)

namespace inplace_vector

/-- Size of a container built from an explicit element list. -/
theorem size_mk (l : List T) :
    (⟨l⟩ : inplace_vector T Capacity).size = l.length := rfl

/-- Contents of a container built from an explicit element list. -/
theorem elems_mk (l : List T) :
    (⟨l⟩ : inplace_vector T Capacity).elems = l := rfl

/-- Unfolding clear to the empty state. -/
theorem clear_eq (v : inplace_vector T Capacity) :
    clear v = (⟨[]⟩ : inplace_vector T Capacity) := rfl

/-- Unfolding the default constructor to the empty state. -/
theorem mkEmpty_eq :
    (mkEmpty : inplace_vector T Capacity) = (⟨[]⟩ : inplace_vector T Capacity) := rfl

/-- When the elements to be appended all fit, the emplace_back loop
succeeds and appends them in order. -/
theorem emplace_back_loop_ok (xs : List T) (v : inplace_vector T Capacity)
    (h : v.size + xs.length ≤ Capacity) :
    emplace_back_loop v xs = (⟨v.elems ++ xs⟩, Except.ok ()) := by
  induction xs generalizing v with
  | nil =>
    obtain ⟨l⟩ := v
    simp [emplace_back_loop]
  | cons x xs ih =>
    have hlen : v.size + (xs.length + 1) ≤ Capacity := by
      simpa [List.length_cons] using h
    have hne : ¬ v.size = Capacity := by omega
    have h2 : (⟨v.elems ++ [x]⟩ : inplace_vector T Capacity).size + xs.length ≤ Capacity := by
      simp only [size_mk, List.length_append, List.length_singleton]
      simp only [size] at hlen
      omega
    simp [emplace_back_loop, emplace_back, try_emplace_back, hne, ih _ h2]

/-- The emplace_back loop never breaks the size invariant, whether or not
it throws. -/
theorem emplace_back_loop_wf (xs : List T) (v : inplace_vector T Capacity)
    (h : v.wf) : (emplace_back_loop v xs).1.wf := by
  induction xs generalizing v with
  | nil => simpa [emplace_back_loop]
  | cons x xs ih =>
    by_cases hc : v.size = Capacity
    · simp only [emplace_back_loop, emplace_back, try_emplace_back, if_pos hc]
      exact h
    · have h2 : (⟨v.elems ++ [x]⟩ : inplace_vector T Capacity).wf := by
        simp only [wf, size_mk, List.length_append, List.length_singleton]
        simp only [wf, size] at h
        simp only [size] at hc
        omega
      simpa [emplace_back_loop, emplace_back, try_emplace_back, hc] using ih _ h2

/-- The emplace_back loop starting from the empty container. -/
theorem emplace_back_loop_from_empty (xs : List T)
    (h : xs.length ≤ Capacity) :
    emplace_back_loop (⟨[]⟩ : inplace_vector T Capacity) xs =
      (⟨xs⟩, Except.ok ()) := by
  simpa using emplace_back_loop_ok xs (⟨[]⟩ : inplace_vector T Capacity)
    (by simpa [size_mk] using h)

/-- Move construction from a source respecting the invariant: the new
object receives the elements in order and the source ends empty. -/
theorem move_ctor_ok (a : inplace_vector T Capacity) (h : a.size ≤ Capacity) :
    move_ctor a =
      ((⟨a.elems⟩, (⟨[]⟩ : inplace_vector T Capacity)), Except.ok ()) := by
  unfold move_ctor
  rw [mkEmpty_eq, emplace_back_loop_from_empty a.elems h]
  rfl

/-- Move assignment from a source respecting the invariant: the target
receives the elements in order and the source ends empty. -/
theorem move_assign_ok (b a : inplace_vector T Capacity)
    (h : a.size ≤ Capacity) :
    move_assign b a =
      ((⟨a.elems⟩, (⟨[]⟩ : inplace_vector T Capacity)), Except.ok ()) := by
  unfold move_assign
  rw [clear_eq, emplace_back_loop_from_empty a.elems h]
  rfl

/-- Swap of two containers respecting the invariant exchanges their
contents. -/
theorem swap_vec_ok (a b : inplace_vector T Capacity)
    (ha : a.size ≤ Capacity) (hb : b.size ≤ Capacity) :
    swap_vec a b = ((⟨b.elems⟩, ⟨a.elems⟩), Except.ok ()) := by
  have hb1 : (⟨b.elems⟩ : inplace_vector T Capacity).size ≤ Capacity := hb
  simp [swap_vec, move_ctor_ok b hb,
    move_assign_ok (⟨[]⟩ : inplace_vector T Capacity) a ha,
    move_assign_ok (⟨[]⟩ : inplace_vector T Capacity)
      (⟨b.elems⟩ : inplace_vector T Capacity) hb1]

/-- The sized append loop of insert succeeds and appends count copies
when there is room. -/
theorem unchecked_append_n_eq (count : Nat) (v : inplace_vector T Capacity)
    (value : T) (h : v.size + count ≤ Capacity) :
    unchecked_append_n v count value =
      some ⟨v.elems ++ List.replicate count value⟩ := by
  induction count generalizing v with
  | zero =>
    obtain ⟨l⟩ := v
    simp [unchecked_append_n]
  | succ n ih =>
    have hne : ¬ v.size = Capacity := by omega
    have h2 : (⟨v.elems ++ [value]⟩ : inplace_vector T Capacity).size + n ≤ Capacity := by
      simp only [size_mk, List.length_append, List.length_singleton]
      simp only [size] at h
      omega
    simp [unchecked_append_n, try_emplace_back, hne,
      ih _ h2, List.replicate_succ]

/-- Inverting a defined run of the sized append loop on an invariant
respecting container: the elements fit and are appended in order. -/
theorem unchecked_append_n_some (count : Nat)
    (v w : inplace_vector T Capacity) (value : T) (hv : v.wf)
    (h : unchecked_append_n v count value = some w) :
    w = ⟨v.elems ++ List.replicate count value⟩ ∧
      v.size + count ≤ Capacity := by
  induction count generalizing v with
  | zero =>
    simp only [unchecked_append_n, Option.some.injEq] at h
    subst h
    obtain ⟨l⟩ := v
    refine ⟨by simp, by simpa [size_mk] using hv⟩
  | succ n ih =>
    by_cases hc : v.size = Capacity
    · simp [unchecked_append_n, try_emplace_back, hc] at h
    · have hv1 : (⟨v.elems ++ [value]⟩ : inplace_vector T Capacity).wf := by
        simp only [wf, size_mk, List.length_append, List.length_singleton]
        simp only [wf, size] at hv
        simp only [size] at hc
        omega
      simp only [unchecked_append_n, try_emplace_back, if_neg hc] at h
      obtain ⟨hw, hle⟩ := ih _ hv1 h
      constructor
      · rw [hw]
        simp [List.replicate_succ]
      · simp only [size_mk, List.length_append, List.length_singleton] at hle
        simp only [size] at hle ⊢
        omega

/-- The iterator-pair append loop of insert equals appending the source
when there is room. -/
theorem unchecked_append_list_eq (xs : List T)
    (v : inplace_vector T Capacity) (h : v.size + xs.length ≤ Capacity) :
    unchecked_append_list v xs = ⟨v.elems ++ xs⟩ := by
  induction xs generalizing v with
  | nil =>
    obtain ⟨l⟩ := v
    simp [unchecked_append_list]
  | cons x xs ih =>
    have hlen : v.size + (xs.length + 1) ≤ Capacity := by
      simpa [List.length_cons] using h
    have hne : ¬ v.size = Capacity := by omega
    have h2 : (⟨v.elems ++ [x]⟩ : inplace_vector T Capacity).size + xs.length ≤ Capacity := by
      simp only [size_mk, List.length_append, List.length_singleton]
      simp only [size] at hlen
      omega
    simp [unchecked_append_list, unchecked_emplace_back, try_emplace_back,
      hne, ih _ h2]

/-- Rotating a suffix into place does not change the number of elements. -/
theorem rotate_tail_length (l : List T) (first middle : Nat)
    (h1 : first ≤ middle) (h2 : middle ≤ l.length) :
    (rotate_tail l first middle).length = l.length := by
  simp [rotate_tail]
  omega

end inplace_vector

/-- The survivor run left by std::remove_if is the stable filter of the
elements by the negated test. -/
theorem remove_if_survivors_eq_filter (p : T → Bool) (l : List T) :
    remove_if_survivors p l = l.filter (fun e => !p e) := by
  induction l with
  | nil => rfl
  | cons x xs ih =>
    by_cases hp : p x <;> simp [remove_if_survivors, List.filter_cons, hp, ih]

/-- Survivors and removed elements together account for every element. -/
theorem length_filter_not_add_countP (p : T → Bool) (l : List T) :
    (l.filter (fun e => !p e)).length + l.countP p = l.length := by
  induction l with
  | nil => rfl
  | cons x xs ih =>
    by_cases hp : p x <;>
      simp [List.filter_cons, List.countP_cons, hp] <;> omega

namespace inplace_vector

/-- C1: the three-way comparison operator of the source orders [1,2,3]
after [1,3], because it compares the sizes first and 3 > 2, whereas the
claimed behavior, pure lexicographic comparison as also modelled from the
spec in spec_compare_three_way, orders [1,2,3] strictly before [1,3]
because 2 < 3 at the second position. This theorem evaluates the embedded
code and the spec-modelled comparison at that failing input. -/
theorem c1_compare_orders_by_size_first :
    compare_three_way (⟨[1, 2, 3]⟩ : inplace_vector Int 3) ⟨[1, 3]⟩ =
      SOrd.gt ∧
    spec_compare_three_way (⟨[1, 2, 3]⟩ : inplace_vector Int 3) ⟨[1, 3]⟩ =
      SOrd.lt := by
  decide

/-- C2: move construction from a container holding elements [e1..en] with
n <= Capacity yields a new object holding exactly those elements in order
while the source ends with size() == 0; move assignment onto any target
behaves the same way. -/
theorem c2_move_leaves_source_empty
    (a b : inplace_vector T Capacity) (h : a.size ≤ Capacity) :
    (move_ctor a).1.1.elems = a.elems ∧
    (move_ctor a).1.2.size = 0 ∧
    (move_ctor a).2 = Except.ok () ∧
    (move_assign b a).1.1.elems = a.elems ∧
    (move_assign b a).1.2.size = 0 ∧
    (move_assign b a).2 = Except.ok () := by
  simp [move_ctor_ok a h, move_assign_ok b a h, size_mk]

/-- C2 witness: the concrete scenario of the spec, A = [1,2,3] with
capacity 3, for both move construction and move assignment. -/
theorem c2_move_witness :
    (move_ctor (⟨[1, 2, 3]⟩ : inplace_vector Int 3)).1.1.elems = [1, 2, 3] ∧
    (move_ctor (⟨[1, 2, 3]⟩ : inplace_vector Int 3)).1.2.size = 0 ∧
    (move_ctor (⟨[1, 2, 3]⟩ : inplace_vector Int 3)).2 = Except.ok () ∧
    (move_assign (⟨[9]⟩ : inplace_vector Int 3) ⟨[1, 2, 3]⟩).1.1.elems =
      [1, 2, 3] ∧
    (move_assign (⟨[9]⟩ : inplace_vector Int 3) ⟨[1, 2, 3]⟩).1.2.size = 0 ∧
    (move_assign (⟨[9]⟩ : inplace_vector Int 3) ⟨[1, 2, 3]⟩).2 =
      Except.ok () :=
  c2_move_leaves_source_empty ⟨[1, 2, 3]⟩ ⟨[9]⟩ (by decide)

/-- C3: evidence of the off-by-one in the count constructor assertion, at
count == Capacity with Capacity = 2. The part_001 assertion
count <= capacity() holds there and the constructor builds a full
container of default-initialized elements with size() == count, but the
variant assertion of part_000 line 108 and inplace_vector.h line 698,
count < capacity(), fails on the very same input, wrongly rejecting
construction at exactly full capacity. -/
theorem c3_count_ctor_capacity_boundary :
    ctor_count_assert 2 2 ∧
    ¬ ctor_count_assert_strict 2 2 ∧
    ctor_count (0 : Int) 2 =
      ((⟨[0, 0]⟩ : inplace_vector Int 2), Except.ok ()) ∧
    (ctor_count (0 : Int) 2 :
      inplace_vector Int 2 × Except Err Unit).1.size = 2 :=
  ⟨by decide, by decide, rfl, rfl⟩

/-- C4: capacity boundary. Filling an empty container with exactly
Capacity elements through the throwing single-element append succeeds with
size() == Capacity; one further throwing append throws std::bad_alloc and
the size stays Capacity; on the same full container the try variants
return nullptr and the size stays Capacity. -/
theorem c4_capacity_boundary (xs : List T) (x : T)
    (h : xs.length = Capacity) :
    emplace_back_loop (⟨[]⟩ : inplace_vector T Capacity) xs =
      (⟨xs⟩, Except.ok ()) ∧
    (⟨xs⟩ : inplace_vector T Capacity).size = Capacity ∧
    emplace_back (⟨xs⟩ : inplace_vector T Capacity) x =
      (⟨xs⟩, Except.error Err.badAlloc) ∧
    try_emplace_back (⟨xs⟩ : inplace_vector T Capacity) x = (⟨xs⟩, none) ∧
    push_back (⟨xs⟩ : inplace_vector T Capacity) x =
      (⟨xs⟩, Except.error Err.badAlloc) ∧
    try_push_back (⟨xs⟩ : inplace_vector T Capacity) x = (⟨xs⟩, none) := by
  have hs : (⟨xs⟩ : inplace_vector T Capacity).size = Capacity := by
    simpa [size_mk] using h
  refine ⟨emplace_back_loop_from_empty xs (le_of_eq h), hs, ?_, ?_, ?_, ?_⟩ <;>
    simp [emplace_back, push_back, try_emplace_back, try_push_back, hs]

/-- C4 witness: capacity 2, fill with [7,8], then attempt a ninth value. -/
theorem c4_capacity_boundary_witness :
    emplace_back_loop (⟨[]⟩ : inplace_vector Int 2) [7, 8] =
      ((⟨[7, 8]⟩ : inplace_vector Int 2), Except.ok ()) ∧
    (⟨[7, 8]⟩ : inplace_vector Int 2).size = 2 ∧
    emplace_back (⟨[7, 8]⟩ : inplace_vector Int 2) 9 =
      (⟨[7, 8]⟩, Except.error Err.badAlloc) ∧
    try_emplace_back (⟨[7, 8]⟩ : inplace_vector Int 2) 9 =
      (⟨[7, 8]⟩, none) ∧
    push_back (⟨[7, 8]⟩ : inplace_vector Int 2) 9 =
      (⟨[7, 8]⟩, Except.error Err.badAlloc) ∧
    try_push_back (⟨[7, 8]⟩ : inplace_vector Int 2) 9 =
      (⟨[7, 8]⟩, none) :=
  c4_capacity_boundary [7, 8] 9 rfl

/-- C5: self copy assignment v = v first clears the destination and then
copies from the already-cleared aliased source, so the container ends
empty with size() == 0 instead of keeping its contents. -/
theorem c5_self_copy_assign_empties (v : inplace_vector T Capacity) :
    copy_assign_self v =
      ((⟨[]⟩ : inplace_vector T Capacity), Except.ok ()) ∧
    (copy_assign_self v).1.size = 0 :=
  ⟨rfl, rfl⟩

/-- The state component of emplace_back agrees with that of
try_emplace_back on both paths. -/
theorem emplace_back_fst (v : inplace_vector T Capacity) (x : T) :
    (emplace_back v x).1 = (try_emplace_back v x).1 := by
  unfold emplace_back
  rcases h : try_emplace_back v x with ⟨v1, r⟩
  cases r <;> rfl

/-- try_emplace_back preserves the size invariant. -/
theorem try_emplace_back_wf (v : inplace_vector T Capacity) (x : T)
    (h : v.wf) : (try_emplace_back v x).1.wf := by
  by_cases hc : v.size = Capacity
  · simp only [try_emplace_back, if_pos hc]
    exact h
  · simp only [try_emplace_back, if_neg hc]
    simp only [wf, size_mk, List.length_append, List.length_singleton]
    simp only [wf, size] at h
    simp only [size] at hc
    omega

/-- unchecked_emplace_back preserves the size invariant under its
precondition. -/
theorem unchecked_emplace_back_wf (v : inplace_vector T Capacity) (x : T)
    (h : v.size < Capacity) : (unchecked_emplace_back v x).wf := by
  simpa only [unchecked_emplace_back] using
    try_emplace_back_wf v x (le_of_lt h)

/-- Whenever the sized positional insert completes with a defined result,
that result respects the size invariant. -/
theorem insert_count_wf (v : inplace_vector T Capacity) (pos count : Nat)
    (value : T) (r : inplace_vector T Capacity × Except Err Nat)
    (hv : v.wf) (hpos : pos ≤ v.size)
    (h : insert_count v pos count value = some r) : r.1.wf := by
  unfold insert_count at h
  by_cases hc : (v.size + count) % sizeTWrap > Capacity
  · rw [if_pos hc] at h
    obtain rfl := Option.some.inj h
    exact hv
  · rw [if_neg hc] at h
    cases hl : unchecked_append_n v count value with
    | none =>
      rw [hl] at h
      exact Option.noConfusion h
    | some appended =>
      rw [hl] at h
      obtain ⟨hw, hle⟩ := unchecked_append_n_some count v appended value hv hl
      obtain rfl := Option.some.inj h
      show (⟨rotate_tail appended.elems pos v.size⟩ :
        inplace_vector T Capacity).wf
      have hmid : v.size ≤ (v.elems ++ List.replicate count value).length := by
        simp [size]
      rw [hw, elems_mk]
      simp only [wf, size_mk]
      rw [rotate_tail_length _ pos v.size hpos hmid]
      simp only [List.length_append, List.length_replicate]
      simp only [size] at hle
      omega

/-- The iterator-pair positional insert preserves the size invariant. -/
theorem insert_list_wf (v : inplace_vector T Capacity) (pos : Nat)
    (src : List T) (hv : v.wf) (hpos : pos ≤ v.size) :
    (insert_list v pos src).1.wf := by
  by_cases hc : v.size + src.length > Capacity
  · simpa [insert_list, hc] using hv
  · have hle : v.size + src.length ≤ Capacity := by omega
    have hmid : v.size ≤ (v.elems ++ src).length := by
      simp [size]
    simp only [insert_list, if_neg hc, unchecked_append_list_eq src v hle]
    simp only [wf, size_mk]
    rw [rotate_tail_length _ pos v.size hpos hmid]
    simp only [List.length_append]
    simp only [size] at hle
    omega

/-- pop_back preserves the size invariant. -/
theorem pop_back_wf (v : inplace_vector T Capacity) (hv : v.wf) :
    (pop_back v).wf := by
  simp only [pop_back, wf, size_mk, List.length_dropLast]
  simp only [wf, size] at hv
  omega

/-- The range erase preserves the size invariant under its
preconditions. -/
theorem erase_range_wf (v : inplace_vector T Capacity) (first last : Nat)
    (hv : v.wf) (h1 : first ≤ last) (h2 : last ≤ v.size) :
    (erase_range v first last).1.wf := by
  by_cases he : first = last
  · simpa [erase_range, he] using hv
  · simp only [erase_range, if_neg he, wf, size_mk, List.length_append,
      List.length_take, List.length_drop]
    simp only [wf, size] at hv
    simp only [size] at h2
    omega

/-- resize preserves the size invariant on every path. -/
theorem resizeImpl_wf (v : inplace_vector T Capacity) (count : Nat)
    (value : T) (hv : v.wf) : (resizeImpl v count value).1.wf := by
  unfold resizeImpl
  by_cases h1 : count = v.size
  · simpa [h1] using hv
  · by_cases h2 : count > Capacity
    · simpa [h1, h2] using hv
    · by_cases h3 : count < v.size
      · simp only [if_neg h1, if_neg h2, if_pos h3]
        simp only [wf, size_mk, List.length_take]
        omega
      · simp only [if_neg h1, if_neg h2, if_neg h3]
        exact emplace_back_loop_wf _ v hv

/-- C6: semantics of the range erase under its preconditions
first <= last <= size(): the result holds the elements before first
followed by the elements from last onward in order, the returned iterator
is first, the size drops by exactly last - first, and when first == last
the call is a no-op returning first. -/
theorem c6_erase_range_shifts_tail_left
    (v : inplace_vector T Capacity) (first last : Nat)
    (h1 : first ≤ last) (h2 : last ≤ v.size) :
    erase_range v first last =
      (⟨v.elems.take first ++ v.elems.drop last⟩, first) ∧
    (erase_range v first last).1.size = v.size - (last - first) ∧
    (first = last → erase_range v first last = (v, first)) := by
  refine ⟨?_, ?_, ?_⟩
  · by_cases he : first = last
    · subst he
      obtain ⟨l⟩ := v
      simp [erase_range]
    · simp [erase_range, he]
  · by_cases he : first = last
    · subst he
      simp [erase_range]
    · simp only [erase_range, if_neg he, size_mk, List.length_append,
        List.length_take, List.length_drop]
      simp only [size] at h2 ⊢
      omega
  · intro he
    simp [erase_range, he]

/-- C6 witness: erasing positions [1, 3) from [1,2,3,4] leaves [1,4],
returns iterator 1, and shrinks the size from 4 to 2. -/
theorem c6_erase_range_witness :
    erase_range (⟨[1, 2, 3, 4]⟩ : inplace_vector Int 4) 1 3 =
      ((⟨[1, 4]⟩ : inplace_vector Int 4), 1) ∧
    (erase_range (⟨[1, 2, 3, 4]⟩ : inplace_vector Int 4) 1 3).1.size = 2 ∧
    (1 = 3 → erase_range (⟨[1, 2, 3, 4]⟩ : inplace_vector Int 4) 1 3 =
      (⟨[1, 2, 3, 4]⟩, 1)) :=
  c6_erase_range_shifts_tail_left ⟨[1, 2, 3, 4]⟩ 1 3 (by decide) (by decide)

/-- C7: the checked accessor at( i ) throws std::out_of_range exactly when
i >= size(), leaves the container state untouched, and for every
i < size() returns the element at index i without mutation. -/
theorem c7_at_checked_out_of_range
    (v : inplace_vector T Capacity) (i : Nat) :
    ((at_checked v i).2 = Except.error Err.outOfRange ↔ v.size ≤ i) ∧
    (at_checked v i).1 = v ∧
    (∀ h : i < v.size,
      (at_checked v i).2 = Except.ok (v.elems.get ⟨i, h⟩)) := by
  refine ⟨?_, rfl, ?_⟩
  · by_cases h : i < v.size
    · simp only [at_checked, dif_pos h]
      constructor
      · intro hcontra
        exact absurd hcontra (by simp)
      · intro hle
        omega
    · simp only [at_checked, dif_neg h]
      simp only [true_iff, eq_self_iff_true]
      omega
  · intro h
    simp [at_checked, h]

/-- C7 witness: on a container of size 2, at( 5 ) reports out-of-range and
the container state is untouched. -/
theorem c7_at_checked_witness :
    ((at_checked (⟨[1, 2]⟩ : inplace_vector Int 3) 5).2 =
        Except.error Err.outOfRange ↔
      (⟨[1, 2]⟩ : inplace_vector Int 3).size ≤ 5) ∧
    (at_checked (⟨[1, 2]⟩ : inplace_vector Int 3) 5).1 = ⟨[1, 2]⟩ ∧
    (∀ h : 5 < (⟨[1, 2]⟩ : inplace_vector Int 3).size,
      (at_checked (⟨[1, 2]⟩ : inplace_vector Int 3) 5).2 =
        Except.ok ((⟨[1, 2]⟩ : inplace_vector Int 3).elems.get ⟨5, h⟩)) :=
  c7_at_checked_out_of_range ⟨[1, 2]⟩ 5

/-- C9 counterexample: the claim fails at a wrapping count. On a full
capacity-2 container with count = 2^64 - 1, the mathematical sum
size() + count exceeds Capacity, yet the size_t capacity check computes
( 2 + (2^64 - 1) ) mod 2^64 = 1, which is not greater than 2, so the
throw is skipped and the append loop dereferences the nullptr returned by
try_emplace_back — undefined behavior, not the claimed capacity error
with the container unchanged. -/
theorem c9_wrapped_count_counterexample :
    (⟨[1, 2]⟩ : inplace_vector Int 2).size + (2 ^ 64 - 1) > 2 ∧
    insert_count (⟨[1, 2]⟩ : inplace_vector Int 2) 0 (2 ^ 64 - 1) 5 =
      none ∧
    insert_count (⟨[1, 2]⟩ : inplace_vector Int 2) 0 (2 ^ 64 - 1) 5 ≠
      some ((⟨[1, 2]⟩ : inplace_vector Int 2),
        Except.error Err.badAlloc) := by
  refine ⟨by decide, rfl, ?_⟩
  intro hcontra
  rw [show insert_count (⟨[1, 2]⟩ : inplace_vector Int 2) 0
      (2 ^ 64 - 1) 5 = none from rfl] at hcontra
  exact Option.noConfusion hcontra

/-- C9 (amended): for every count whose size_t sum does not wrap, i.e.
size() + count < 2^64, a sized insert that would exceed capacity throws
std::bad_alloc before constructing any element and the container is
completely unchanged; the iterator-pair insert, whose distance-derived
count cannot make the sum wrap, behaves the same on its overflow path. -/
theorem c9_bulk_insert_overflow_is_all_or_nothing
    (v : inplace_vector T Capacity) (pos count : Nat) (value : T)
    (src : List T)
    (hnw : v.size + count < sizeTWrap)
    (h1 : v.size + count > Capacity)
    (h2 : v.size + src.length > Capacity) :
    insert_count v pos count value =
      some (v, Except.error Err.badAlloc) ∧
    insert_list v pos src = (v, Except.error Err.badAlloc) := by
  constructor
  · have hg : (v.size + count) % sizeTWrap > Capacity := by
      rw [Nat.mod_eq_of_lt hnw]
      exact h1
    simp [insert_count, hg]
  · simp [insert_list, h2]

/-- C9 witness: a full capacity-2 container rejects both bulk insert
forms with a non-wrapping count and is unchanged. -/
theorem c9_bulk_insert_overflow_witness :
    insert_count (⟨[1, 2]⟩ : inplace_vector Int 2) 0 1 5 =
      some (⟨[1, 2]⟩, Except.error Err.badAlloc) ∧
    insert_list (⟨[1, 2]⟩ : inplace_vector Int 2) 0 [5] =
      (⟨[1, 2]⟩, Except.error Err.badAlloc) :=
  c9_bulk_insert_overflow_is_all_or_nothing ⟨[1, 2]⟩ 0 1 5 [5]
    (by decide) (by decide) (by decide)

/-- C10: every public operation preserves the size invariant
0 <= size() <= Capacity, under the respective preconditions: the
unchecked append requires free capacity, pop_back a non-empty container,
positional insert a valid position, and range erase a valid range. For
the sized insert the statement covers every defined completion: whenever
the call returns a result at all — rather than hitting the undefined
behavior of the wrapped-count path — that result respects the
invariant. -/
theorem c10_all_operations_preserve_size_invariant
    (v w : inplace_vector T Capacity) (x value dflt : T) (src : List T)
    (pos count first last : Nat) (hv : v.wf) (hw : w.wf) :
    (⟨[]⟩ : inplace_vector T Capacity).wf ∧
    (@ctor_count T Capacity dflt count).1.wf ∧
    (emplace_back v x).1.wf ∧
    (try_emplace_back v x).1.wf ∧
    (push_back v x).1.wf ∧
    (try_push_back v x).1.wf ∧
    (v.size < Capacity → (unchecked_emplace_back v x).wf) ∧
    (pos ≤ v.size → ∀ r, insert_count v pos count value = some r →
      r.1.wf) ∧
    (pos ≤ v.size → (insert_list v pos src).1.wf) ∧
    (0 < v.size → (pop_back v).wf) ∧
    (first ≤ last → last ≤ v.size → (erase_range v first last).1.wf) ∧
    (clear v).wf ∧
    (resizeImpl v count value).1.wf ∧
    (copy_ctor v).1.wf ∧
    (copy_assign v w).1.wf ∧
    (copy_assign_self v).1.wf ∧
    (move_ctor v).1.1.wf ∧
    (move_ctor v).1.2.wf ∧
    (move_assign v w).1.1.wf ∧
    (move_assign v w).1.2.wf ∧
    (swap_vec v w).1.1.wf ∧
    (swap_vec v w).1.2.wf := by
  have hempty : (⟨[]⟩ : inplace_vector T Capacity).wf := by
    simp [wf, size_mk]
  have htry : (try_emplace_back v x).1.wf := try_emplace_back_wf v x hv
  refine ⟨hempty, ?_, ?_, htry, ?_, htry, ?_, ?_, ?_, ?_, ?_, hempty, ?_,
    ?_, ?_, ?_, ?_, ?_, ?_, ?_, ?_, ?_⟩
  · exact emplace_back_loop_wf _ _ hempty
  · rw [emplace_back_fst]
    exact htry
  · rw [push_back, emplace_back_fst]
    exact htry
  · intro h
    exact unchecked_emplace_back_wf v x h
  · intro hp r hr
    exact insert_count_wf v pos count value r hv hp hr
  · intro h
    exact insert_list_wf v pos src hv h
  · intro _
    exact pop_back_wf v hv
  · intro ha hb
    exact erase_range_wf v first last hv ha hb
  · exact resizeImpl_wf v count value hv
  · exact emplace_back_loop_wf _ _ hempty
  · exact emplace_back_loop_wf _ _ hempty
  · exact emplace_back_loop_wf _ _ hempty
  · simp only [move_ctor_ok v hv]
    simpa [wf, size_mk] using hv
  · simp [move_ctor_ok v hv, wf, size_mk]
  · simp only [move_assign_ok v w hw]
    simpa [wf, size_mk] using hw
  · simp [move_assign_ok v w hw, wf, size_mk]
  · simp only [swap_vec_ok v w hv hw]
    simpa [wf, size_mk] using hw
  · simp only [swap_vec_ok v w hv hw]
    simpa [wf, size_mk] using hv

/-- C10 witness: the invariant facts at a concrete instantiation with
capacity 2, discharging the preconditions there. -/
theorem c10_invariant_witness : (⟨[]⟩ : inplace_vector Int 2).wf :=
  (c10_all_operations_preserve_size_invariant
    (⟨[1]⟩ : inplace_vector Int 2) ⟨[2]⟩ 3 4 0 [5] 0 1 0 1
    (by decide) (by decide)).1

end inplace_vector

/-- C8: the free functions erase( vec, value ) and erase_if( vec, pred )
keep exactly the elements failing the removal test, in their original
relative order (the survivors are the stable filter and a sublist of the
original contents), and return the number of removed elements, which
equals the decrease in size(). -/
theorem c8_free_erase_filters_and_counts [DecidableEq T]
    (v : inplace_vector T Capacity) (value : T) (p : T → Bool) :
    (erase_value v value).1.elems =
      v.elems.filter (fun e => !decide (e = value)) ∧
    (erase_value v value).1.elems.Sublist v.elems ∧
    (erase_value v value).2 =
      v.elems.countP (fun e => decide (e = value)) ∧
    (erase_value v value).2 =
      v.size - (erase_value v value).1.size ∧
    (erase_if_free v p).1.elems = v.elems.filter (fun e => !p e) ∧
    (erase_if_free v p).1.elems.Sublist v.elems ∧
    (erase_if_free v p).2 = v.elems.countP p ∧
    (erase_if_free v p).2 = v.size - (erase_if_free v p).1.size := by
  have h1 : remove_if_survivors (fun e => decide (e = value)) v.elems =
      v.elems.filter (fun e => !decide (e = value)) :=
    remove_if_survivors_eq_filter _ _
  have h2 : remove_if_survivors p v.elems =
      v.elems.filter (fun e => !p e) :=
    remove_if_survivors_eq_filter _ _
  have h3 : (v.elems.filter (fun e => !decide (e = value))).length +
      v.elems.countP (fun e => decide (e = value)) = v.elems.length :=
    length_filter_not_add_countP _ _
  have h4 : (v.elems.filter (fun e => !p e)).length + v.elems.countP p =
      v.elems.length :=
    length_filter_not_add_countP _ _
  refine ⟨?_, ?_, ?_, rfl, ?_, ?_, ?_, rfl⟩
  · simpa [erase_value] using h1
  · simp only [erase_value, h1]
    exact List.filter_sublist _
  · simp only [erase_value, h1, inplace_vector.size]
    omega
  · simpa [erase_if_free] using h2
  · simp only [erase_if_free, h2]
    exact List.filter_sublist _
  · simp only [erase_if_free, h2, inplace_vector.size]
    omega

end PKIsensee
